import Mathlib

/-!
Verification development for the `store-images` media-vault application.

The embedding translates, into Lean:
  * the data model of `src/types.ts` (`MediaType`, `MediaItem`, `AppSettings`);
  * the IndexedDB-backed store service (`saveMediaItems`, `getAllMediaItems`,
    `deleteMediaItem`) of `src/services/db.ts`;
  * the batch ingestion pipeline `processBatchUpload` of
    `src/components/UploadModal.tsx` (classification is done by the caller;
    the pipeline receives the already-classified `MediaType` per item);
  * the object-URL lifecycle of the `App` component (the `objectUrlsRef`
    set together with `handleUpload`, `handleDeleteItem` and the unmount
    cleanup that revokes every remaining URL).

Nondeterministic or environment-supplied values (`Math.random`, `Date.now`,
`toLocaleTimeString`, the resolved value of `analyzeMedia`, and whether the
per-item `try` block throws) are passed in explicitly through `Env`, so every
definition is an executable function of its inputs.  Purely presentational
strings (the status text, the simulated-bitrate display, and the one-decimal
`toFixed` size formatting) are not modelled; no property below depends on
them.
-/

namespace StoreImages

/-- Media kinds, from `enum MediaType` in src/types.ts (string values
"IMAGE" and "VIDEO"; the source has no third kind). -/
inductive MediaType where
  | IMAGE
  | VIDEO
deriving DecidableEq, Repr

/-- The enum's string value, as used by the template literal
`` `Stored ${type}` `` in the catch branch of `processBatchUpload`. -/
def MediaType.str : MediaType → String
  | .IMAGE => "IMAGE"
  | .VIDEO => "VIDEO"

/-- `type.toLowerCase()` as used for the fallback tag list
`['vault', type.toLowerCase()]` in `processBatchUpload`. -/
def MediaType.lower : MediaType → String
  | .IMAGE => "image"
  | .VIDEO => "video"

/-- A persisted media record, from `interface MediaItem` in src/types.ts.
`sizeMB` holds the numeric megabyte value behind the display string `size`
(the `toFixed(1) + " MB"` formatting itself is presentational and not
modelled). -/
structure MediaItem where
  id : String
  url : String
  type : MediaType
  title : String
  description : Option String
  tags : List String
  isFavorite : Bool
  createdAt : Nat
  sizeMB : Option ℚ
deriving DecidableEq, Repr

/-- The `uploadSpeedLimit` field of `AppSettings` in src/types.ts:
`'unlimited' | '10mbps' | '5mbps' | '1mbps'`. -/
inductive UploadSpeedLimit where
  | unlimited
  | mbps10
  | mbps5
  | mbps1
deriving DecidableEq, Repr

/-- The fields of `AppSettings` (src/types.ts) read by the ingestion
pipeline and by the enrichment discussion: `autoTagging` is the
AI-analysis/enrichment toggle, `uploadSpeedLimit` the throttle tier.  The
remaining fields (`theme`, `gridSize`, `storageUsage`, `wifiOnly`) are never
read by the code under consideration and are omitted. -/
structure AppSettings where
  autoTagging : Bool
  uploadSpeedLimit : UploadSpeedLimit
deriving DecidableEq, Repr

/-! ### Persistent store (src/services/db.ts)

The backing medium is an IndexedDB object store created with
`{ keyPath: 'id' }`: records are keyed by their `id` field.  The store's
contents are modelled as a list of records. -/

/-- IndexedDB `store.put(item)` on an object store with `keyPath: 'id'`:
an upsert — if a record with the same key exists it is replaced, otherwise
the record is appended. -/
def idbPut (store : List MediaItem) (item : MediaItem) : List MediaItem :=
  if store.any (fun r => r.id == item.id) then
    store.map (fun r => if r.id == item.id then item else r)
  else
    store ++ [item]

/-- IndexedDB `store.delete(id)`: removes the record with that key; the
request succeeds (it is not an error) when no such record exists. -/
def idbDelete (store : List MediaItem) (id : String) : List MediaItem :=
  store.filter (fun r => r.id != id)

/-- `saveMediaItems(items)` from src/services/db.ts.  All the `put`
requests are issued inside one `readwrite` IndexedDB transaction;
`resolve` fires on `transaction.oncomplete` and `reject` on
`transaction.onerror`.  Per the IndexedDB specification, an unhandled
request error (the code never calls `preventDefault`) aborts the
transaction, and an aborted transaction rolls back every write it made, so
on failure the visible store is unchanged.  `putFails` says which
individual `put` requests error (e.g. from a quota failure). -/
def saveMediaItems (putFails : MediaItem → Bool) (store : List MediaItem)
    (items : List MediaItem) : Except String (List MediaItem) :=
  if items.any putFails then
    Except.error "Error saving items"
  else
    Except.ok (items.foldl idbPut store)

/-- The store visible after a `saveMediaItems` call: the transaction
result on success, the original store on failure (transaction abort rolls
back all of the call's writes). -/
def storeAfterSave (putFails : MediaItem → Bool) (store : List MediaItem)
    (items : List MediaItem) : List MediaItem :=
  match saveMediaItems putFails store items with
  | Except.ok s => s
  | Except.error _ => store

/-- `getAllMediaItems()` from src/services/db.ts: `store.getAll()`, every
stored record. -/
def getAllMediaItems (store : List MediaItem) : List MediaItem :=
  store

/-- `deleteMediaItem(id)` from src/services/db.ts: a single
`store.delete(id)` request in a `readwrite` transaction. -/
def deleteMediaItem (store : List MediaItem) (id : String) : List MediaItem :=
  idbDelete store id

/-! ### Ingestion pipeline (src/components/UploadModal.tsx, `processBatchUpload`) -/

/-- An outcome stream for `Math.random()`: a sequence of values in `[0, 1)`. -/
def Sampler : Type := { r : ℕ → ℚ // ∀ i, 0 ≤ r i ∧ r i < 1 }

/-- JavaScript `Math.round x = ⌊x + 0.5⌋`. -/
def jround (q : ℚ) : ℤ :=
  Int.floor (q + 1 / 2)

/-- The `analyzeMedia` result shape (src/services/geminiService.ts): the
JSON object `{title, description, tags}` demanded by the response schema. -/
structure Analysis where
  title : String
  description : String
  tags : List String
deriving DecidableEq, Repr

/-- The environment-supplied values consumed by one `processBatchUpload`
call, indexed by the batch position `i` of the loop iteration:
`rand i` is the `Math.random()` stream driving item `i`'s throttle ticks,
`analysis i` the resolved value of `analyzeMedia(...).catch(() => null)`
(`none` is JavaScript `null`: missing API key, request failure, or empty
response), `commitThrows i` whether item `i`'s `try` block throws at the
commit step (sending control to the `catch` branch), `idGen i` the
`Math.random().toString(36).substr(2, 9)` id, `nowMs i` the `Date.now()`
timestamp and `timeStr i` the `toLocaleTimeString()` text. -/
structure Env where
  rand : ℕ → Sampler
  analysis : ℕ → Option Analysis
  commitThrows : ℕ → Bool
  idGen : ℕ → String
  nowMs : ℕ → ℕ
  timeStr : ℕ → String

/-- One raw batch entry: `processBatchUpload(base64Array, types, mimeTypes,
sizes)` receives parallel arrays; an entry bundles position `i` of each.
A `size` of `0` stands for a missing/zero `sizes[i]` (JavaScript falsy). -/
structure UploadInput where
  base64 : String
  type : MediaType
  mimeType : String
  size : ℚ
deriving DecidableEq, Repr

/-- `sizes[i] || base64.length * 0.75` — the byte-size fallback estimate
from the base64 length when `sizes[i]` is falsy. -/
def effectiveSize (inp : UploadInput) : ℚ :=
  if inp.size = 0 then (inp.base64.length : ℚ) * (3 / 4) else inp.size

/-- `appSettings?.uploadSpeedLimit === '1mbps'` (optional chaining:
`false` when `appSettings` is `undefined`). -/
def speedIs1mbps : Option AppSettings → Bool
  | some a => a.uploadSpeedLimit == UploadSpeedLimit.mbps1
  | none => false

/-- `appSettings?.uploadSpeedLimit === 'unlimited'` (optional chaining:
`false` when `appSettings` is `undefined`, so the source's
`!== 'unlimited'` guard is the negation of this). -/
def speedIsUnlimited : Option AppSettings → Bool
  | some a => a.uploadSpeedLimit == UploadSpeedLimit.unlimited
  | none => false

/-- The guard of the throttle-simulation block:
`type === MediaType.VIDEO || appSettings?.uploadSpeedLimit !== 'unlimited'`. -/
def throttleActive (s : Option AppSettings) (t : MediaType) : Bool :=
  t == MediaType.VIDEO || !(speedIsUnlimited s)

/-- The per-tick increment bound:
`appSettings?.uploadSpeedLimit === '1mbps' ? 3 : 15`. -/
def tickIncOf (oneMbps : Bool) : ℚ :=
  if oneMbps then 3 else 15

/-- The per-tick delay in milliseconds:
`appSettings?.uploadSpeedLimit === '1mbps' ? 200 : 50`. -/
def tickDelay (s : Option AppSettings) : ℕ :=
  if speedIs1mbps s then 200 else 50

/-- `simulatedProgress` after `n` iterations of the `while` loop: each
iteration adds `Math.random() * increment + 5`. -/
def simProgress (inc : ℚ) (r : ℕ → ℚ) : ℕ → ℚ
  | 0 => 0
  | n + 1 => simProgress inc r n + (r n * inc + 5)

/-- The iteration count of `while (simulatedProgress < 98) { ... }`
starting from iteration `t`, with an explicit iteration budget `fuel`.
Because every increment is at least `5` (for `Math.random()` values in
`[0, 1)` and a nonnegative increment bound), `simProgress` reaches `98`
within `20` iterations, so the budget of `20` used by `loopTickCount`
below is never exhausted on such streams and the count equals the exact
number of loop iterations. -/
def loopTicksFrom (inc : ℚ) (r : ℕ → ℚ) : ℕ → ℕ → ℕ
  | _, 0 => 0
  | t, fuel + 1 =>
    if simProgress inc r t < 98 then loopTicksFrom inc r (t + 1) fuel + 1 else 0

/-- The number of throttle ticks the `while` loop performs for one item. -/
def loopTickCount (oneMbps : Bool) (r : Sampler) : ℕ :=
  loopTicksFrom (tickIncOf oneMbps) r.1 0 20

/-- The progress percentage emitted by one throttle tick, for batch item
`i` of `total` with `simulatedProgress = sim`:
`Math.min(99, Math.round(((i / total) * 100) + (simulatedProgress / 100 * (100 / total))))`. -/
def tickValue (i total : ℕ) (sim : ℚ) : ℤ :=
  min 99 (jround ((i : ℚ) / (total : ℚ) * 100 + sim / 100 * (100 / (total : ℚ))))

/-- The progress values emitted by item `i`'s throttle simulation, in
order (one per loop iteration, after that iteration's increment); empty
when the throttle guard is off. -/
def itemTicks (s : Option AppSettings) (t : MediaType) (i total : ℕ)
    (r : Sampler) : List ℤ :=
  if throttleActive s t then
    (List.range (loopTickCount (speedIs1mbps s) r)).map
      (fun k => tickValue i total (simProgress (tickIncOf (speedIs1mbps s)) r.1 (k + 1)))
  else
    []

/-- The end-of-item progress update `Math.round(((i + 1) / total) * 100)`. -/
def endValue (i total : ℕ) : ℤ :=
  jround (((i : ℚ) + 1) / (total : ℚ) * 100)

/-- The total simulated transfer duration of one item, in milliseconds:
the sum of the tick delays (`ticks × delay`), zero when the throttle guard
is off. -/
def itemDuration (s : Option AppSettings) (t : MediaType) (r : Sampler) : ℕ :=
  if throttleActive s t then loopTickCount (speedIs1mbps s) r * tickDelay s else 0

/-- JavaScript `a || b` on strings: the empty string is falsy. -/
def jsOrStr (a b : String) : String :=
  if a = "" then b else a

/-- `analysis?.title || fallback`. -/
def titleOf (an : Option Analysis) (fb : String) : String :=
  match an with
  | some a => jsOrStr a.title fb
  | none => fb

/-- `analysis?.description || fallback`. -/
def descOf (an : Option Analysis) (fb : String) : String :=
  match an with
  | some a => jsOrStr a.description fb
  | none => fb

/-- `analysis?.tags || fallback` (a present array is truthy even when
empty). -/
def tagsOf (an : Option Analysis) (fb : List String) : List String :=
  match an with
  | some a => a.tags
  | none => fb

/-- The value the pipeline actually awaits for item `i`:
`type === MediaType.IMAGE ? await analyzeMedia(base64Clean, mimeType).catch(() => null) : null`
(line 89 of UploadModal.tsx) — the client is consulted only for images. -/
def itemAnalysis (env : Env) (inp : UploadInput) (i : ℕ) : Option Analysis :=
  if inp.type == MediaType.IMAGE then env.analysis i else none

/-- The record pushed by the `try` branch for item `i`: id from
`Math.random`, the data URL as payload, metadata adopted from the analysis
when present and otherwise the deterministic defaults
(`'Video Memory'/'Photo' + time`, `'Stored in encrypted 8TB vault.'`,
`['vault', type.toLowerCase()]`). -/
def builtItem (env : Env) (inp : UploadInput) (i : ℕ) : MediaItem :=
  { id := env.idGen i
    url := inp.base64
    type := inp.type
    title := titleOf (itemAnalysis env inp i)
      ((if inp.type == MediaType.VIDEO then "Video Memory" else "Photo")
        ++ " " ++ env.timeStr i)
    description := some (descOf (itemAnalysis env inp i) "Stored in encrypted 8TB vault.")
    tags := tagsOf (itemAnalysis env inp i) ["vault", inp.type.lower]
    isFavorite := false
    createdAt := env.nowMs i
    sizeMB := some (effectiveSize inp / (1024 * 1024)) }

/-- The record pushed by the `catch` branch for item `i`: title
`` `Stored ${type}` ``, tags `['backup']`, no description and no size. -/
def fallbackItem (env : Env) (inp : UploadInput) (i : ℕ) : MediaItem :=
  { id := env.idGen i
    url := inp.base64
    type := inp.type
    title := "Stored " ++ inp.type.str
    description := none
    tags := ["backup"]
    isFavorite := false
    createdAt := env.nowMs i
    sizeMB := none }

/-- What the loop iteration for item `i` appends to `newItems`: the
`catch`-branch record when the `try` block throws, the normal record
otherwise.  Either way the iteration pushes exactly one record and the
loop continues with the next item. -/
def committedItem (env : Env) (inp : UploadInput) (i : ℕ) : MediaItem :=
  if env.commitThrows i then fallbackItem env inp i else builtItem env inp i

/-- The `newItems` array built by the batch loop, starting at batch
position `k`. -/
def batchItems (env : Env) : ℕ → List UploadInput → List MediaItem
  | _, [] => []
  | k, inp :: rest => committedItem env inp k :: batchItems env (k + 1) rest

/-- The sequence of `setUploadProgress` values emitted by the batch loop
from position `k` on (each item's throttle-tick values followed by its
end-of-item update). -/
def batchTrace (s : Option AppSettings) (env : Env) (total : ℕ) :
    ℕ → List UploadInput → List ℤ
  | _, [] => []
  | k, inp :: rest =>
    itemTicks s inp.type k total (env.rand k)
      ++ endValue k total :: batchTrace s env total (k + 1) rest

/-- The loop iterations that invoke the Enrichment Client: exactly those
whose item satisfies the line-89 condition `type === MediaType.IMAGE`
(the `appSettings` toggle does not appear in that condition). -/
def enrichCallIdxs (inputs : List UploadInput) : List ℕ :=
  (List.range inputs.length).filter fun i =>
    match inputs.get? i with
    | some inp => inp.type == MediaType.IMAGE
    | none => false

/-- The observable outcome of one `processBatchUpload` call. -/
structure BatchResult where
  newItems : List MediaItem
  progressTrace : List ℤ
  enrichCalls : List ℕ

/-- `processBatchUpload` (src/components/UploadModal.tsx, lines 53-120):
strictly sequential over the batch; per item it runs the throttle
simulation (when active), consults the Enrichment Client for images, and
pushes one record — the `catch` branch replaces a failed item with a
fallback record and the loop continues.  The call always completes with
exactly one record per input and reports the whole `newItems` list through
`onUpload`; no error is ever surfaced to the caller.  The initial
`setUploadProgress(0)` heads the progress trace. -/
def processBatchUpload (s : Option AppSettings) (env : Env)
    (inputs : List UploadInput) : BatchResult :=
  { newItems := batchItems env 0 inputs
    progressTrace := 0 :: batchTrace s env inputs.length 0 inputs
    enrichCalls := enrichCallIdxs inputs }

/-! ### Object-URL registry (App component, src/vite.config.ts)

The App tracks every `URL.createObjectURL` result in the
`objectUrlsRef.current` set.  `acquire` (the load effect and
`handleUpload`, one `createObjectURL` per Blob payload) adds a fresh URL;
`handleDeleteItem` revokes and removes the deleted item's URL when that
item carries a `blob:` URL (items with data URLs carry none); the unmount
cleanup of the load effect revokes every URL still in the set.  The
registry is modelled as a state machine over these three events. -/

/-- One registry event.  `deleteItem (some u)` is a `handleDeleteItem`
call whose deleted item holds the `blob:` object URL `u`;
`deleteItem none` is a delete whose item has no `blob:` URL (or no item
was found), which touches the registry not at all. -/
inductive UrlEvent where
  | acquire (url : String)
  | deleteItem (url : Option String)
  | releaseAll
deriving DecidableEq, Repr

/-- The registry state: the URLs currently in `objectUrlsRef.current`
(created and not yet revoked), plus lifetime counters of
`URL.createObjectURL` and `URL.revokeObjectURL` calls. -/
structure RegistryState where
  live : List String
  createdCount : ℕ
  revokedCount : ℕ
deriving DecidableEq, Repr

/-- The registry before any event. -/
def initialRegistry : RegistryState :=
  { live := [], createdCount := 0, revokedCount := 0 }

/-- The effect of one event: `acquire` is `URL.createObjectURL` plus
`objectUrlsRef.current.add(url)`; `deleteItem (some u)` is
`URL.revokeObjectURL(u)` plus `objectUrlsRef.current.delete(u)`;
`releaseAll` is the cleanup's `forEach(url => URL.revokeObjectURL(url))`
over the set (after which no URL in it is live). -/
def urlStep (st : RegistryState) : UrlEvent → RegistryState
  | UrlEvent.acquire u =>
    { live := st.live ++ [u]
      createdCount := st.createdCount + 1
      revokedCount := st.revokedCount }
  | UrlEvent.deleteItem none => st
  | UrlEvent.deleteItem (some u) =>
    { live := st.live.erase u
      createdCount := st.createdCount
      revokedCount := st.revokedCount + 1 }
  | UrlEvent.releaseAll =>
    { live := []
      createdCount := st.createdCount
      revokedCount := st.revokedCount + st.live.length }

/-- Running a list of events. -/
def runUrlEvents (st : RegistryState) (es : List UrlEvent) : RegistryState :=
  es.foldl urlStep st

/-- Well-formedness of an event trace against the program: an acquired URL
is fresh (`URL.createObjectURL` never returns a URL already live), and a
`deleteItem (some u)` only happens with `u` in the set — every `blob:` URL
held by an item in `mediaItems` was put into `objectUrlsRef.current` when
it was created, and a delete removes the item, so the same URL cannot be
delete-revoked twice. -/
def wfUrlEvents (st : RegistryState) : List UrlEvent → Bool
  | [] => true
  | UrlEvent.acquire u :: es =>
    !(st.live.contains u) && wfUrlEvents (urlStep st (UrlEvent.acquire u)) es
  | UrlEvent.deleteItem none :: es => wfUrlEvents st es
  | UrlEvent.deleteItem (some u) :: es =>
    st.live.contains u && wfUrlEvents (urlStep st (UrlEvent.deleteItem (some u))) es
  | UrlEvent.releaseAll :: es => wfUrlEvents (urlStep st UrlEvent.releaseAll) es

/-! ### Concrete data for counterexamples and witnesses -/

/-- A constant `Math.random` stream with value `9/10`. -/
def samplerNine : Sampler :=
  ⟨fun _ => 9 / 10, fun _ => by norm_num⟩

/-- An environment whose `try` block throws exactly at batch position 1
and whose enrichment always resolves to `null`. -/
def envThrow1 : Env :=
  ⟨fun _ => samplerNine, fun _ => none, fun i => i == 1,
    fun i => toString i, fun _ => 0, fun _ => "12:00:00"⟩

/-- An environment with no throw and enrichment resolving to `null`. -/
def envClean : Env :=
  ⟨fun _ => samplerNine, fun _ => none, fun _ => false,
    fun i => toString i, fun _ => 0, fun _ => "12:00:00"⟩

/-- A video input (`.mp4`, one mebibyte). -/
def vidInput : UploadInput :=
  ⟨"data:video/mp4,AAAA", MediaType.VIDEO, "video/mp4", 1048576⟩

/-- An image input. -/
def imgInput : UploadInput :=
  ⟨"data:image/png,BBBB", MediaType.IMAGE, "image/png", 2048⟩

/-- A three-item all-video batch. -/
def inputs3 : List UploadInput :=
  [vidInput, vidInput, vidInput]

/-- A two-item all-video batch. -/
def inputs2 : List UploadInput :=
  [vidInput, vidInput]

/-- Settings with the `10mbps` tier and auto-tagging on. -/
def set10 : AppSettings :=
  ⟨true, UploadSpeedLimit.mbps10⟩

/-- Settings with enrichment (auto-tagging) switched off, unlimited tier. -/
def setNoTag : AppSettings :=
  ⟨false, UploadSpeedLimit.unlimited⟩

/-- A store record used in concrete store scenarios. -/
def recA : MediaItem :=
  ⟨"a", "data:image/png,AA", MediaType.IMAGE, "A", none, ["vault", "image"],
    false, 10, none⟩

/-- A second store record, with a different id. -/
def recB : MediaItem :=
  ⟨"b", "data:image/png,BB", MediaType.IMAGE, "B", none, ["vault", "image"],
    false, 20, none⟩

/-! ## Store lemmas -/

/-- A record whose id differs from the put key is untouched by `idbPut`. -/
theorem mem_idbPut_of_ne {r it : MediaItem} {s : List MediaItem}
    (hr : r ∈ s) (hne : r.id ≠ it.id) : r ∈ idbPut s it := by
  unfold idbPut
  split
  · exact List.mem_map.mpr ⟨r, hr, by simp [hne]⟩
  · exact List.mem_append_left _ hr

/-- After `idbPut s it`, a record with the put key is present. -/
theorem idbPut_any_self (s : List MediaItem) (it : MediaItem) :
    (idbPut s it).any (fun x => x.id == it.id) = true := by
  unfold idbPut
  split
  · rename_i h
    rw [List.any_eq_true] at h ⊢
    obtain ⟨x, hx, hxe⟩ := h
    exact ⟨it, List.mem_map.mpr ⟨x, hx, by simp [hxe]⟩, by simp⟩
  · rw [List.any_eq_true]
    exact ⟨it, by simp, by simp⟩

/-- `idbPut` never removes an id that was present. -/
theorem idbPut_any_mono {s : List MediaItem} {y : String} (it : MediaItem)
    (h : s.any (fun x => x.id == y) = true) :
    (idbPut s it).any (fun x => x.id == y) = true := by
  rw [List.any_eq_true] at h
  obtain ⟨x, hx, hxy⟩ := h
  have hxy' : x.id = y := by simpa using hxy
  by_cases hcase : x.id = it.id
  · have hy : y = it.id := hxy' ▸ hcase
    rw [hy]
    exact idbPut_any_self s it
  · rw [List.any_eq_true]
    exact ⟨x, mem_idbPut_of_ne hx hcase, hxy⟩

/-- Folding `idbPut` over items none of which mentions `r.id` keeps `r`. -/
theorem mem_foldl_idbPut_of_not_mentioned {r : MediaItem} :
    ∀ (items s : List MediaItem), r ∈ s → (∀ it ∈ items, it.id ≠ r.id) →
      r ∈ items.foldl idbPut s := by
  intro items
  induction items with
  | nil => intro s hr _; simpa using hr
  | cons it rest ih =>
    intro s hr hni
    simp only [List.foldl_cons]
    refine ih (idbPut s it) (mem_idbPut_of_ne hr ?_) ?_
    · exact Ne.symm (hni it (by simp))
    · intro it' hit'
      exact hni it' (by simp [hit'])

/-- Folding `idbPut` never removes an id that was present. -/
theorem any_foldl_idbPut_mono {y : String} :
    ∀ (items s : List MediaItem), s.any (fun x => x.id == y) = true →
      (items.foldl idbPut s).any (fun x => x.id == y) = true := by
  intro items
  induction items with
  | nil => intro s h; simpa using h
  | cons it rest ih =>
    intro s h
    simp only [List.foldl_cons]
    exact ih (idbPut s it) (idbPut_any_mono it h)

/-- Folding `idbPut` makes every put id present. -/
theorem any_foldl_idbPut_self :
    ∀ (items s : List MediaItem) (it : MediaItem), it ∈ items →
      (items.foldl idbPut s).any (fun x => x.id == it.id) = true := by
  intro items
  induction items with
  | nil => intro s it hit; simp at hit
  | cons a rest ih =>
    intro s it hit
    simp only [List.foldl_cons]
    rcases List.mem_cons.mp hit with h | h
    · subst h
      exact any_foldl_idbPut_mono rest _ (idbPut_any_self s it)
    · exact ih _ it h

/-! ## C2 -/

/-- C2: `deleteMediaItem id` removes the record with that id when one is
present and is a no-op (not an error) when none is; every other record is
kept, and `getAllMediaItems` performed after the delete never returns a
record with that id. -/
theorem c2_delete_then_getAll (store : List MediaItem) (id : String) :
    (∀ r ∈ getAllMediaItems (deleteMediaItem store id), r.id ≠ id) ∧
    ((∀ r ∈ store, r.id ≠ id) → deleteMediaItem store id = store) ∧
    (∀ r ∈ store, r.id ≠ id → r ∈ deleteMediaItem store id) := by
  refine ⟨?_, ?_, ?_⟩
  · intro r hr
    simp only [getAllMediaItems, deleteMediaItem, idbDelete, List.mem_filter,
      bne_iff_ne, decide_eq_true_eq] at hr
    exact hr.2
  · intro h
    unfold deleteMediaItem idbDelete
    apply List.filter_eq_self.mpr
    intro r hr
    simpa [bne_iff_ne] using h r hr
  · intro r hr hne
    unfold deleteMediaItem idbDelete
    exact List.mem_filter.mpr ⟨hr, by simpa [bne_iff_ne] using hne⟩

/-- C2 witness: the theorem at the concrete store `[recA]` and the absent
id `"b"` — the delete is a no-op and the subsequent `getAll` has no record
with id `"b"`. -/
theorem c2_delete_then_getAll_witness :
    (∀ r ∈ getAllMediaItems (deleteMediaItem [recA] "b"), r.id ≠ "b") ∧
    deleteMediaItem [recA] "b" = [recA] :=
  ⟨(c2_delete_then_getAll [recA] "b").1,
    (c2_delete_then_getAll [recA] "b").2.1 (by decide)⟩

/-! ## C3 -/

/-- C3 is false on the code: the puts of one `saveMediaItems` call share a
single IndexedDB transaction, so when the put of `recB` errors, the
already-successful put of `recA` is rolled back with the aborted
transaction — after the call the store does not contain `recA`. -/
theorem c3_counterexample :
    saveMediaItems (fun r => r.id == "b") [] [recA, recB]
        = Except.error "Error saving items" ∧
    recA ∉ storeAfterSave (fun r => r.id == "b") [] [recA, recB] := by
  constructor
  · rfl
  · decide

/-- C3 amended: `saveMediaItems` applies its puts atomically, not
independently — if any put fails the whole call's writes are rolled back
and the store is unchanged; if none fails every put is applied and each
saved id is present afterwards. -/
theorem c3_amended (putFails : MediaItem → Bool) (store items : List MediaItem) :
    (items.any putFails = true → storeAfterSave putFails store items = store) ∧
    (items.any putFails = false →
      storeAfterSave putFails store items = items.foldl idbPut store ∧
      ∀ it ∈ items,
        (storeAfterSave putFails store items).any (fun x => x.id == it.id) = true) := by
  constructor
  · intro h
    simp [storeAfterSave, saveMediaItems, h]
  · intro h
    have hs : storeAfterSave putFails store items = items.foldl idbPut store := by
      simp [storeAfterSave, saveMediaItems, h]
    exact ⟨hs, fun it hit => hs ▸ any_foldl_idbPut_self items store it hit⟩

/-- C3 amended witness: a failing call leaves the store unchanged, a clean
call applies its puts. -/
theorem c3_amended_witness :
    storeAfterSave (fun r => r.id == "b") [recA] [recB] = [recA] ∧
    storeAfterSave (fun _ => false) [recA] [recB] = [recB].foldl idbPut [recA] :=
  ⟨(c3_amended (fun r => r.id == "b") [recA] [recB]).1 (by decide),
    ((c3_amended (fun _ => false) [recA] [recB]).2 (by decide)).1⟩

/-! ## C10 -/

/-- C10: a successful `saveMediaItems` call only upserts the records given
to it — every record already in the store whose id does not occur among the
call's items is still present and unchanged afterwards, and no id that was
present is removed by the call. -/
theorem c10_save_frame (putFails : MediaItem → Bool) (store items : List MediaItem)
    (hok : items.any putFails = false) :
    (∀ r ∈ store, (∀ it ∈ items, it.id ≠ r.id) →
      r ∈ storeAfterSave putFails store items) ∧
    (∀ r ∈ store,
      (storeAfterSave putFails store items).any (fun x => x.id == r.id) = true) := by
  have hs : storeAfterSave putFails store items = items.foldl idbPut store := by
    simp [storeAfterSave, saveMediaItems, hok]
  constructor
  · intro r hr hni
    rw [hs]
    exact mem_foldl_idbPut_of_not_mentioned items store hr hni
  · intro r hr
    rw [hs]
    refine any_foldl_idbPut_mono items store ?_
    rw [List.any_eq_true]
    exact ⟨r, hr, by simp⟩

/-! ## Pipeline lemmas -/

/-- The batch loop pushes exactly one record per input. -/
theorem batchItems_length (env : Env) :
    ∀ (k : ℕ) (inputs : List UploadInput),
      (batchItems env k inputs).length = inputs.length := by
  intro k inputs
  induction inputs generalizing k with
  | nil => rfl
  | cons inp rest ih => simp [batchItems, ih]

/-- Position `j` of the batch output is the committed record of input `j`
(offset by the loop's starting position `k`). -/
theorem batchItems_get? (env : Env) :
    ∀ (inputs : List UploadInput) (k j : ℕ),
      (batchItems env k inputs).get? j
        = (inputs.get? j).map (fun inp => committedItem env inp (k + j)) := by
  intro inputs
  induction inputs with
  | nil => intro k j; simp [batchItems]
  | cons inp rest ih =>
    intro k j
    cases j with
    | zero => simp [batchItems]
    | succ j' =>
      have h : k + 1 + j' = k + (j' + 1) := by omega
      simp only [batchItems, List.get?_cons_succ]
      rw [ih (k + 1) j']
      simp only [h]

/-! ## C1 -/

/-- C1 is false on the code: with the commit of item 1 (of 3) failing,
`processBatchUpload` neither raises an error nor stops — item 2 is still
attempted and committed (the output has all three records), and item 1 is
committed as the `catch`-branch fallback record rather than reported. -/
theorem c1_counterexample :
    (processBatchUpload (some set10) envThrow1 inputs3).newItems.length = 3 ∧
    ((processBatchUpload (some set10) envThrow1 inputs3).newItems.get? 1).map
        MediaItem.tags = some ["backup"] ∧
    ((processBatchUpload (some set10) envThrow1 inputs3).newItems.get? 2).isSome
        = true := by
  refine ⟨?_, ?_, ?_⟩ <;> rfl

/-- C1 amended: a commit failure for item `i` never aborts the batch and
no error is raised — the pipeline always outputs exactly one record per
input (items `i+1..n` are still attempted and committed), and a failing
item `i` is committed as the `catch`-branch fallback record. -/
theorem c1_amended (s : Option AppSettings) (env : Env)
    (inputs : List UploadInput) :
    (processBatchUpload s env inputs).newItems.length = inputs.length ∧
    (∀ i inp, inputs.get? i = some inp → env.commitThrows i = true →
      (processBatchUpload s env inputs).newItems.get? i
        = some (fallbackItem env inp i)) := by
  constructor
  · exact batchItems_length env 0 inputs
  · intro i inp hget hthrow
    show (batchItems env 0 inputs).get? i = _
    rw [batchItems_get? env inputs 0 i, hget]
    simp [committedItem, hthrow]

/-- C1 amended witness: the amended statement at the concrete failing
batch of `c1_counterexample`. -/
theorem c1_amended_witness :
    (processBatchUpload (some set10) envThrow1 inputs3).newItems.length
        = inputs3.length ∧
    (processBatchUpload (some set10) envThrow1 inputs3).newItems.get? 1
        = some (fallbackItem envThrow1 vidInput 1) :=
  ⟨(c1_amended (some set10) envThrow1 inputs3).1,
    (c1_amended (some set10) envThrow1 inputs3).2 1 vidInput rfl rfl⟩

/-! ## C4 -/

/-- C4 is false on the code: with enrichment (auto-tagging) switched off,
the pipeline still invokes the Enrichment Client for an image item — the
invocation condition tests only `type === MediaType.IMAGE`. -/
theorem c4_counterexample :
    setNoTag.autoTagging = false ∧
    (processBatchUpload (some setNoTag) envClean [imgInput]).enrichCalls
        = [0] := by
  exact ⟨rfl, rfl⟩

/-- C4 amended: the Enrichment Client is invoked for batch item `i`
exactly when that item's kind is Image — independently of the
`autoTagging` (enrichment) setting and the speed tier. -/
theorem c4_amended (s : Option AppSettings) (env : Env)
    (inputs : List UploadInput) (i : ℕ) :
    i ∈ (processBatchUpload s env inputs).enrichCalls ↔
      ∃ inp, inputs.get? i = some inp ∧ inp.type = MediaType.IMAGE := by
  show i ∈ enrichCallIdxs inputs ↔ _
  unfold enrichCallIdxs
  rw [List.mem_filter, List.mem_range]
  constructor
  · rintro ⟨hlt, hcond⟩
    cases hget : inputs.get? i with
    | none => rw [hget] at hcond; simp at hcond
    | some inp =>
      rw [hget] at hcond
      exact ⟨inp, rfl, by simpa using hcond⟩
  · rintro ⟨inp, hget, htype⟩
    obtain ⟨hlt, -⟩ := List.get?_eq_some.mp hget
    refine ⟨hlt, ?_⟩
    rw [hget]
    simpa using htype

/-! ## C5 -/

/-- C5: an enrichment failure on item `k` is recovered locally and never
aborts the batch — with no commit failure, every item `j` (in particular
those after `k`) is committed as its normal record, and item `k`'s record
carries the deterministic fallback metadata. -/
theorem c5_enrichment_failure_local (s : Option AppSettings) (env : Env)
    (inputs : List UploadInput) (k : ℕ)
    (hnt : ∀ i, env.commitThrows i = false)
    (hk : env.analysis k = none) :
    (processBatchUpload s env inputs).newItems.length = inputs.length ∧
    (∀ j inp, inputs.get? j = some inp →
      (processBatchUpload s env inputs).newItems.get? j
        = some (builtItem env inp j)) ∧
    (∀ inp, inputs.get? k = some inp →
      (builtItem env inp k).title
          = (if inp.type == MediaType.VIDEO then "Video Memory" else "Photo")
            ++ " " ++ env.timeStr k ∧
      (builtItem env inp k).description = some "Stored in encrypted 8TB vault." ∧
      (builtItem env inp k).tags = ["vault", inp.type.lower]) := by
  refine ⟨batchItems_length env 0 inputs, ?_, ?_⟩
  · intro j inp hget
    show (batchItems env 0 inputs).get? j = _
    rw [batchItems_get? env inputs 0 j, hget]
    simp [committedItem, hnt j]
  · intro inp _
    have han : itemAnalysis env inp k = none := by
      unfold itemAnalysis
      split
      · exact hk
      · rfl
    refine ⟨?_, ?_, ?_⟩ <;> simp [builtItem, han, titleOf, descOf, tagsOf]

/-- C5 witness: the theorem at a concrete two-video batch whose
enrichment resolves to `null` — both items committed, item 0 with the
fallback tags. -/
theorem c5_enrichment_failure_local_witness :
    (processBatchUpload (some set10) envClean inputs2).newItems.length
        = inputs2.length ∧
    (processBatchUpload (some set10) envClean inputs2).newItems.get? 1
        = some (builtItem envClean vidInput 1) ∧
    (builtItem envClean vidInput 0).tags = ["vault", MediaType.VIDEO.lower] :=
  ⟨(c5_enrichment_failure_local (some set10) envClean inputs2 0
      (fun _ => rfl) rfl).1,
    (c5_enrichment_failure_local (some set10) envClean inputs2 0
      (fun _ => rfl) rfl).2.1 1 vidInput rfl,
    ((c5_enrichment_failure_local (some set10) envClean inputs2 0
      (fun _ => rfl) rfl).2.2 vidInput rfl).2.2⟩

/-! ## C6 -/

/-- C6 is false on the code: a video ingested with enrichment disabled
has fallback tags `["vault", "video"]` — the constant `"vault"` followed
by the lowercased kind, not the file extension (here `"mp4"`). -/
theorem c6_counterexample :
    ((processBatchUpload (some setNoTag) envClean [vidInput]).newItems.get? 0).map
        MediaItem.tags = some ["vault", "video"] ∧
    ¬ ((processBatchUpload (some setNoTag) envClean [vidInput]).newItems.get? 0).map
        MediaItem.tags = some ["mp4", "video"] := by
  constructor
  · rfl
  · decide

/-- C6 amended: an item committed without a successful enrichment result
gets metadata derived from its kind and the wall clock — not from a file
name or extension: title `'Video Memory'/'Photo' + time`, description
`'Stored in encrypted 8TB vault.'`, tags `['vault', kind.toLowerCase()]`;
a video ingested with enrichment disabled therefore has tags
`["vault", "video"]`. -/
theorem c6_amended (s : Option AppSettings) (env : Env)
    (inputs : List UploadInput) (i : ℕ) (inp : UploadInput)
    (hget : inputs.get? i = some inp)
    (hnt : env.commitThrows i = false)
    (han : itemAnalysis env inp i = none) :
    (processBatchUpload s env inputs).newItems.get? i
        = some (builtItem env inp i) ∧
    (builtItem env inp i).title
        = (if inp.type == MediaType.VIDEO then "Video Memory" else "Photo")
          ++ " " ++ env.timeStr i ∧
    (builtItem env inp i).description = some "Stored in encrypted 8TB vault." ∧
    (builtItem env inp i).tags = ["vault", inp.type.lower] := by
  refine ⟨?_, ?_⟩
  · show (batchItems env 0 inputs).get? i = _
    rw [batchItems_get? env inputs 0 i, hget]
    simp [committedItem, hnt]
  · refine ⟨?_, ?_, ?_⟩ <;> simp [builtItem, han, titleOf, descOf, tagsOf]

/-- C6 amended witness: the amended statement at the concrete video input
of `c6_counterexample`. -/
theorem c6_amended_witness :
    (processBatchUpload (some setNoTag) envClean [vidInput]).newItems.get? 0
        = some (builtItem envClean vidInput 0) ∧
    (builtItem envClean vidInput 0).tags = ["vault", "video"] :=
  ⟨(c6_amended (some setNoTag) envClean [vidInput] 0 vidInput rfl rfl rfl).1,
    (c6_amended (some setNoTag) envClean [vidInput] 0 vidInput rfl rfl rfl).2.2.2⟩

/-! ## C7 lemmas -/

/-- `Math.round` is monotone into integer bounds: a value at most `n`
rounds to at most `n`. -/
theorem jround_le {q : ℚ} {n : ℤ} (h : q ≤ (n : ℚ)) : jround q ≤ n := by
  unfold jround
  have hlt : Int.floor (q + 1 / 2) < n + 1 := by
    rw [Int.floor_lt]
    push_cast
    linarith
  omega

/-- The end-of-item update never exceeds 100. -/
theorem endValue_le_100 {i total : ℕ} (h : i + 1 ≤ total) (hpos : 0 < total) :
    endValue i total ≤ 100 := by
  unfold endValue
  apply jround_le
  have htpos : (0 : ℚ) < (total : ℚ) := by exact_mod_cast hpos
  have hle : ((i : ℚ) + 1) ≤ (total : ℚ) := by exact_mod_cast h
  have h1 : ((i : ℚ) + 1) / (total : ℚ) ≤ 1 := (div_le_one htpos).mpr hle
  push_cast
  linarith

/-- Every throttle-tick value is capped at 99 by the source's
`Math.min(99, ...)`. -/
theorem itemTicks_le_99 (s : Option AppSettings) (t : MediaType) (i total : ℕ)
    (r : Sampler) : ∀ p ∈ itemTicks s t i total r, p ≤ 99 := by
  intro p hp
  unfold itemTicks at hp
  split at hp
  · obtain ⟨k, -, hk⟩ := List.mem_map.mp hp
    rw [← hk]
    unfold tickValue
    exact min_le_left _ _
  · simp at hp

/-- The last item's end-of-item update is exactly 100. -/
theorem endValue_last (total : ℕ) (hpos : 0 < total) :
    endValue (total - 1) total = 100 := by
  unfold endValue
  have h1 : ((total - 1 : ℕ) : ℚ) + 1 = (total : ℚ) := by
    have hge : (1 : ℕ) ≤ total := hpos
    push_cast [hge]
    ring
  have htne : (total : ℚ) ≠ 0 := Nat.cast_ne_zero.mpr (by omega)
  rw [h1, div_self htne, one_mul]
  norm_num [jround]

/-- A nonempty batch emits at least its end-of-item updates. -/
theorem batchTrace_ne_nil (s : Option AppSettings) (env : Env) (total k : ℕ)
    (inp : UploadInput) (rest : List UploadInput) :
    batchTrace s env total k (inp :: rest) ≠ [] := by
  simp [batchTrace]

/-- The last progress value emitted by the batch loop is the final item's
end-of-item update. -/
theorem batchTrace_getLast (s : Option AppSettings) (env : Env) (total : ℕ) :
    ∀ (inputs : List UploadInput) (k : ℕ), inputs ≠ [] →
      (batchTrace s env total k inputs).getLast?
        = some (endValue (k + (inputs.length - 1)) total) := by
  intro inputs
  induction inputs with
  | nil => intro k h; exact absurd rfl h
  | cons inp rest ih =>
    intro k _
    show (itemTicks s inp.type k total (env.rand k)
        ++ endValue k total :: batchTrace s env total (k + 1) rest).getLast? = _
    rw [List.getLast?_append_cons]
    cases rest with
    | nil => simp [batchTrace]
    | cons r rs =>
      have hne : batchTrace s env total (k + 1) (r :: rs) ≠ [] :=
        batchTrace_ne_nil s env total (k + 1) r rs
      have hx : (endValue k total :: batchTrace s env total (k + 1) (r :: rs))
          = [endValue k total] ++ batchTrace s env total (k + 1) (r :: rs) := rfl
      have harg : k + 1 + ((r :: rs).length - 1)
          = k + ((inp :: r :: rs).length - 1) := by
        simp only [List.length_cons]
        omega
      rw [hx, List.getLast?_append_of_ne_nil _ hne, ih (k + 1) (by simp), harg]

/-- Every value the batch loop emits is at most 100. -/
theorem batchTrace_le_100 (s : Option AppSettings) (env : Env) (total : ℕ)
    (hpos : 0 < total) :
    ∀ (inputs : List UploadInput) (k : ℕ), k + inputs.length ≤ total →
      ∀ p ∈ batchTrace s env total k inputs, p ≤ 100 := by
  intro inputs
  induction inputs with
  | nil => intro k _ p hp; simp [batchTrace] at hp
  | cons inp rest ih =>
    intro k hk p hp
    have hp' : p ∈ itemTicks s inp.type k total (env.rand k)
        ∨ p = endValue k total ∨ p ∈ batchTrace s env total (k + 1) rest := by
      simpa [batchTrace] using hp
    rcases hp' with hp' | hp' | hp'
    · have := itemTicks_le_99 s inp.type k total (env.rand k) p hp'
      omega
    · subst hp'
      refine endValue_le_100 ?_ hpos
      simp only [List.length_cons] at hk
      omega
    · refine ih (k + 1) ?_ p hp'
      simp only [List.length_cons] at hk
      omega

/-! ## C7 -/

/-- C7 is false on the code: in a two-video batch under the `10mbps`
tier with the `Math.random` stream constantly `9/10`, the emitted
progress sequence is `[0, 9, 19, 28, 37, 46, 56, 50, ...]` — the
simulated-progress overshoot makes item 0's last tick report 56, after
which the end-of-item update drops back to 50, so the sequence is not
monotonically non-decreasing; moreover position 13 (a throttle tick of
item 1, not a final step) reports 99, above the claimed 98 cap. -/
theorem c7_counterexample :
    ¬ List.Chain' (fun a b => a ≤ b)
        (processBatchUpload (some set10) envClean inputs2).progressTrace ∧
    (processBatchUpload (some set10) envClean inputs2).progressTrace.get? 13
        = some 99 ∧
    (processBatchUpload (some set10) envClean inputs2).progressTrace.length
        = 15 := by
  have htrace : (processBatchUpload (some set10) envClean inputs2).progressTrace
      = [0, 9, 19, 28, 37, 46, 56, 50, 59, 69, 78, 87, 96, 99, 100] := by
    norm_num +decide [processBatchUpload, batchTrace, itemTicks, loopTickCount,
      loopTicksFrom, simProgress, tickValue, endValue, jround, tickIncOf,
      throttleActive, speedIs1mbps, speedIsUnlimited, set10, envClean,
      samplerNine, inputs2, vidInput, List.range_succ]
  rw [htrace]
  refine ⟨?_, by decide, by decide⟩
  norm_num [List.chain'_cons]

/-- C7 amended: within one batch call the reported percentage is capped
at 99 (not 98) during throttle ticks, never exceeds 100, and the final
update at batch completion is exactly 100; the sequence is not
monotonically non-decreasing (see the counterexample), so only these
bounds hold. -/
theorem c7_amended (s : Option AppSettings) (env : Env)
    (inputs : List UploadInput) (h : inputs ≠ []) :
    (processBatchUpload s env inputs).progressTrace.getLast? = some 100 ∧
    (∀ p ∈ (processBatchUpload s env inputs).progressTrace, p ≤ 100) ∧
    (∀ t i total r, ∀ p ∈ itemTicks s t i total r, p ≤ 99) := by
  have hpos : 0 < inputs.length := List.length_pos.mpr h
  refine ⟨?_, ?_, fun t i total r => itemTicks_le_99 s t i total r⟩
  · show (0 :: batchTrace s env inputs.length 0 inputs).getLast? = some 100
    have hne : batchTrace s env inputs.length 0 inputs ≠ [] := by
      cases inputs with
      | nil => exact absurd rfl h
      | cons a l => exact batchTrace_ne_nil s env _ 0 a l
    have hx : (0 :: batchTrace s env inputs.length 0 inputs)
        = [0] ++ batchTrace s env inputs.length 0 inputs := rfl
    rw [hx, List.getLast?_append_of_ne_nil _ hne,
      batchTrace_getLast s env inputs.length inputs 0 h, Nat.zero_add,
      endValue_last inputs.length hpos]
  · intro p hp
    rcases List.mem_cons.mp hp with h0 | hp'
    · simp [h0]
    · exact batchTrace_le_100 s env inputs.length hpos inputs 0 (by omega) p hp'

/-- C7 amended witness: the amended statement at the concrete batch of
`c7_counterexample`. -/
theorem c7_amended_witness :
    (processBatchUpload (some set10) envClean inputs2).progressTrace.getLast?
        = some 100 :=
  (c7_amended (some set10) envClean inputs2 (by decide)).1

/-! ## C8 -/

/-- Conservation invariant of the object-URL registry: every
`createObjectURL` call is accounted for either by a revocation or by a
still-live set entry, along any well-formed event trace. -/
theorem runUrlEvents_invariant :
    ∀ (es : List UrlEvent) (st : RegistryState),
      wfUrlEvents st es = true →
      st.createdCount = st.revokedCount + st.live.length →
      (runUrlEvents st es).createdCount
        = (runUrlEvents st es).revokedCount + (runUrlEvents st es).live.length := by
  intro es
  induction es with
  | nil => intro st _ h; exact h
  | cons e rest ih =>
    intro st hwf hinv
    cases e with
    | acquire u =>
      have hwf' : wfUrlEvents (urlStep st (UrlEvent.acquire u)) rest = true := by
        simp only [wfUrlEvents, Bool.and_eq_true] at hwf
        exact hwf.2
      refine ih _ hwf' ?_
      simp only [urlStep, List.length_append, List.length_cons, List.length_nil]
      omega
    | deleteItem ou =>
      cases ou with
      | none =>
        have hwf' : wfUrlEvents st rest = true := by
          simpa only [wfUrlEvents] using hwf
        exact ih st hwf' hinv
      | some u =>
        have hwf2 : st.live.contains u = true
            ∧ wfUrlEvents (urlStep st (UrlEvent.deleteItem (some u))) rest = true := by
          simpa only [wfUrlEvents, Bool.and_eq_true] using hwf
        have hmem : u ∈ st.live := by
          simpa using hwf2.1
        have hlen : (st.live.erase u).length = st.live.length - 1 :=
          List.length_erase_of_mem hmem
        have hpos : 1 ≤ st.live.length :=
          List.length_pos.mpr (List.ne_nil_of_mem hmem)
        refine ih _ hwf2.2 ?_
        simp only [urlStep, hlen]
        omega
    | releaseAll =>
      have hwf' : wfUrlEvents (urlStep st UrlEvent.releaseAll) rest = true := by
        simpa only [wfUrlEvents] using hwf
      refine ih _ hwf' ?_
      simp only [urlStep, List.length_nil]
      omega

/-- C8: over any well-formed process lifetime ending in the teardown
`releaseAll`, the number of display URLs created via acquire equals the
number revoked via delete/releaseAll, and the live-handle count is zero
immediately after `releaseAll`. -/
theorem c8_handle_conservation (es : List UrlEvent)
    (hwf : wfUrlEvents initialRegistry es = true) :
    (runUrlEvents initialRegistry (es ++ [UrlEvent.releaseAll])).live = [] ∧
    (runUrlEvents initialRegistry (es ++ [UrlEvent.releaseAll])).createdCount
      = (runUrlEvents initialRegistry (es ++ [UrlEvent.releaseAll])).revokedCount := by
  have hfin : runUrlEvents initialRegistry (es ++ [UrlEvent.releaseAll])
      = urlStep (runUrlEvents initialRegistry es) UrlEvent.releaseAll := by
    simp [runUrlEvents, List.foldl_append]
  have hinv := runUrlEvents_invariant es initialRegistry hwf rfl
  constructor
  · rw [hfin]
    rfl
  · rw [hfin]
    simp only [urlStep]
    omega

/-- C8 witness: the theorem on a concrete lifetime — two acquires, one
item delete, then teardown. -/
theorem c8_handle_conservation_witness :
    (runUrlEvents initialRegistry
        ([UrlEvent.acquire "blob:a", UrlEvent.acquire "blob:b",
          UrlEvent.deleteItem (some "blob:a")] ++ [UrlEvent.releaseAll])).live = [] ∧
    (runUrlEvents initialRegistry
        ([UrlEvent.acquire "blob:a", UrlEvent.acquire "blob:b",
          UrlEvent.deleteItem (some "blob:a")] ++ [UrlEvent.releaseAll])).createdCount
      = (runUrlEvents initialRegistry
          ([UrlEvent.acquire "blob:a", UrlEvent.acquire "blob:b",
            UrlEvent.deleteItem (some "blob:a")] ++ [UrlEvent.releaseAll])).revokedCount :=
  c8_handle_conservation
    [UrlEvent.acquire "blob:a", UrlEvent.acquire "blob:b",
      UrlEvent.deleteItem (some "blob:a")] (by decide)

/-! ## C9 lemmas -/

/-- Each loop increment is at least 5, so `simulatedProgress` grows by at
least `5` per tick. -/
theorem simProgress_lower (inc : ℚ) (hinc : 0 ≤ inc) (r : Sampler) :
    ∀ n : ℕ, 5 * (n : ℚ) ≤ simProgress inc r.1 n := by
  intro n
  induction n with
  | zero => simp [simProgress]
  | succ k ih =>
    have h0 : 0 ≤ r.1 k * inc := mul_nonneg (r.2 k).1 hinc
    have he : simProgress inc r.1 (k + 1)
        = simProgress inc r.1 k + (r.1 k * inc + 5) := rfl
    rw [he]
    push_cast
    linarith

/-- Under the `1mbps` increment bound `3`, each increment is below 8. -/
theorem simProgress_upper_mbps1 (r : Sampler) :
    ∀ n : ℕ, simProgress 3 r.1 n ≤ 8 * (n : ℚ) := by
  intro n
  induction n with
  | zero => simp [simProgress]
  | succ k ih =>
    have h1 : r.1 k < 1 := (r.2 k).2
    have he : simProgress 3 r.1 (k + 1)
        = simProgress 3 r.1 k + (r.1 k * 3 + 5) := rfl
    rw [he]
    push_cast
    linarith

/-- The loop runs at most `fuel` iterations. -/
theorem loopTicksFrom_le (inc : ℚ) (r : ℕ → ℚ) :
    ∀ (fuel t : ℕ), loopTicksFrom inc r t fuel ≤ fuel := by
  intro fuel
  induction fuel with
  | zero => intro t; simp [loopTicksFrom]
  | succ f ih =>
    intro t
    simp only [loopTicksFrom]
    split
    · exact Nat.succ_le_succ (ih (t + 1))
    · exact Nat.zero_le _

/-- As long as `simulatedProgress` stays below 98 the loop keeps
iterating. -/
theorem loopTicksFrom_ge (inc : ℚ) (r : ℕ → ℚ) :
    ∀ (fuel k t : ℕ), k ≤ fuel →
      (∀ m, m < k → simProgress inc r (t + m) < 98) →
      k ≤ loopTicksFrom inc r t fuel := by
  intro fuel
  induction fuel with
  | zero =>
    intro k t hk _
    simpa [loopTicksFrom] using hk
  | succ f ih =>
    intro k t hk hlt
    cases k with
    | zero => exact Nat.zero_le _
    | succ k' =>
      have h0 : simProgress inc r t < 98 := by
        simpa using hlt 0 (Nat.succ_pos k')
      simp only [loopTicksFrom, if_pos h0]
      have hrec : k' ≤ loopTicksFrom inc r (t + 1) f := by
        refine ih k' (t + 1) (by omega) ?_
        intro m hm
        have hx := hlt (m + 1) (by omega)
        have harg : t + (m + 1) = t + 1 + m := by omega
        rwa [harg] at hx
      omega

/-- The throttle loop always ticks at least once. -/
theorem loopTickCount_pos (oneMbps : Bool) (r : Sampler) :
    1 ≤ loopTickCount oneMbps r := by
  refine loopTicksFrom_ge _ _ 20 1 0 (by omega) ?_
  intro m hm
  have hm0 : m = 0 := by omega
  subst hm0
  show simProgress (tickIncOf oneMbps) r.1 0 < 98
  simp [simProgress]

/-- The throttle loop never ticks more than 20 times. -/
theorem loopTickCount_le (oneMbps : Bool) (r : Sampler) :
    loopTickCount oneMbps r ≤ 20 :=
  loopTicksFrom_le _ _ 20 0

/-- Under the `1mbps` tier the loop ticks at least 13 times: twelve
increments below 8 cannot reach 98. -/
theorem loopTickCount_mbps1_ge_13 (r : Sampler) :
    13 ≤ loopTickCount true r := by
  refine loopTicksFrom_ge _ _ 20 13 0 (by omega) ?_
  intro m hm
  have hub := simProgress_upper_mbps1 r m
  have hm' : (m : ℚ) ≤ 12 := by exact_mod_cast Nat.le_of_lt_succ hm
  have hinc : tickIncOf true = 3 := rfl
  simp only [Nat.zero_add, hinc]
  linarith

/-! ## C9 -/

/-- C9: for two otherwise-identical inputs ingested under tier `1mbps`
versus tier `unlimited`, the `1mbps` run's total simulated duration (the
sum of its tick delays) is strictly greater, for every pair of outcome
streams of the `Math.random` sampler — for images the unlimited run skips
the throttle loop entirely, for videos 13 ticks of 200 ms always beat at
most 20 ticks of 50 ms. -/
theorem c9_tier_duration (a : AppSettings) (t : MediaType) (r rU : Sampler) :
    itemDuration (some { a with uploadSpeedLimit := UploadSpeedLimit.unlimited }) t rU
      < itemDuration (some { a with uploadSpeedLimit := UploadSpeedLimit.mbps1 }) t r := by
  have h1 : speedIs1mbps (some { a with uploadSpeedLimit := UploadSpeedLimit.mbps1 })
      = true := rfl
  have h2 : speedIs1mbps (some { a with uploadSpeedLimit := UploadSpeedLimit.unlimited })
      = false := rfl
  have hact1 : throttleActive (some { a with uploadSpeedLimit := UploadSpeedLimit.mbps1 }) t
      = true := by
    cases t <;> rfl
  have hval1 : itemDuration (some { a with uploadSpeedLimit := UploadSpeedLimit.mbps1 }) t r
      = loopTickCount true r * 200 := by
    unfold itemDuration tickDelay
    rw [hact1, h1]
    simp
  have h13 : 13 * 200 ≤ loopTickCount true r * 200 :=
    Nat.mul_le_mul_right 200 (loopTickCount_mbps1_ge_13 r)
  have hvalU : itemDuration (some { a with uploadSpeedLimit := UploadSpeedLimit.unlimited }) t rU
      ≤ 1000 := by
    unfold itemDuration tickDelay
    rw [h2]
    cases t with
    | IMAGE => simp [throttleActive, speedIsUnlimited]
    | VIDEO =>
      simp only [throttleActive, Bool.or_eq_true, beq_self_eq_true, true_or, if_true,
        Bool.false_eq_true, if_false]
      calc loopTickCount false rU * 50 ≤ 20 * 50 :=
            Nat.mul_le_mul_right 50 (loopTickCount_le false rU)
        _ = 1000 := rfl
  omega

/-- C10 witness: saving `[recB]` over the store `[recA]` keeps `recA`
present and unchanged. -/
theorem c10_save_frame_witness :
    recA ∈ storeAfterSave (fun _ => false) [recA] [recB] ∧
    (storeAfterSave (fun _ => false) [recA] [recB]).any
      (fun x => x.id == recA.id) = true :=
  ⟨(c10_save_frame (fun _ => false) [recA] [recB] (by decide)).1 recA
      (by decide) (by decide),
    (c10_save_frame (fun _ => false) [recA] [recB] (by decide)).2 recA (by decide)⟩

end StoreImages
